import Mathlib

/-!
# Verification of the letterbounced web solver

Shallow embedding of the letterbounced repository: the solver web worker
(`src/unnamed/part_003`), the caller-side Svelte stores
(`src/web/svelte-app/src/stores/solver-worker.ts`,
`src/web/svelte-app/src/stores/puzzle.ts`), the solutions-display component
(embedded after the store in the same source file), the reactive block of
`src/web/svelte-app/src/App.svelte`, and — modelled from the spec, since the
Rust/WASM core is not part of the sources — the chain solver.

JS strings that are manipulated character-by-character are embedded as
`List Char`; JS strings only compared for equality are embedded as `String`.
JS `number` values that are always non-negative integers in the code are
embedded as `Nat`; where a negative value matters (the letter-index range
check) `Int` is used.  `null`/`undefined` become `Option`.
-/

namespace LetterBounced

/-! ## Solutions display component

Embeds `parseSolution`, `solutionsByWordCount`, `getWordCounts` and
`getSortedSolutions` from the solutions-display component (the second
document embedded in `src/web/svelte-app/src/stores/solver-worker.ts`).
-/

namespace Solutions

/-- Model of JS `String.prototype.split(sep)` for a single-character
separator: splits at every occurrence of `sep`, keeping empty pieces.
The result is always non-empty (`''.split(c)` is `['']`). -/
def splitOnChar (sep : Char) : List Char → List (List Char)
  | [] => [[]]
  | c :: cs =>
    let rest := splitOnChar sep cs
    if c = sep then [] :: rest
    else
      match rest with
      | [] => [[c]]
      | r :: rs => (c :: r) :: rs

theorem splitOnChar_ne_nil (sep : Char) (s : List Char) : splitOnChar sep s ≠ [] := by
  induction s with
  | nil => simp [splitOnChar]
  | cons c cs ih =>
    simp only [splitOnChar]
    split
    · simp
    · match h : splitOnChar sep cs with
      | [] => exact absurd h ih
      | r :: rs => simp

theorem splitOnChar_of_not_mem (sep : Char) (s : List Char) (h : sep ∉ s) :
    splitOnChar sep s = [s] := by
  induction s with
  | nil => rfl
  | cons c cs ih =>
    simp only [List.mem_cons, not_or] at h
    simp only [splitOnChar, if_neg (Ne.symm h.1), ih h.2]

theorem splitOnChar_append (sep : Char) (w s : List Char) (hw : sep ∉ w) :
    splitOnChar sep (w ++ sep :: s) = w :: splitOnChar sep s := by
  induction w with
  | nil => simp [splitOnChar]
  | cons c cs ih =>
    simp only [List.mem_cons, not_or] at hw
    have hrec := ih hw.2
    simp only [List.cons_append, splitOnChar, if_neg (Ne.symm hw.1)]
    rw [show cs.append (sep :: s) = cs ++ sep :: s from rfl, hrec]

/-- Result of `parseSolution`: the hyphen-joined words, the score field and
the letter count. -/
structure ParsedSolution where
  words : List Char
  score : List Char
  length : Nat
deriving DecidableEq, Repr

/-- Embeds `parseSolution` from the solutions component:
`parts = solutionStr.split(':')`, `words = parts[0] || ''`,
`score = parts[1] || ''`, and `length` is the length of `words` with all
hyphens removed (the global hyphen-regex replace followed by `.length`).
(`parts[i] || ''` yields `''` both for an absent index and for an empty
piece, which coincides with `Option.getD` since the empty piece is `[]`.) -/
def parseSolution (solutionStr : List Char) : ParsedSolution :=
  let parts := splitOnChar ':' solutionStr
  let words := (parts.get? 0).getD []
  let score := (parts.get? 1).getD []
  { words := words
    score := score
    length := (words.filter (fun a => a != '-')).length }

/-- Word count of a solution string as computed in `solutionsByWordCount`:
`parseSolution(solution).words.split('-').length`. -/
def wordCount (solutionStr : List Char) : Nat :=
  (splitOnChar '-' (parseSolution solutionStr).words).length

/-- Embeds the `solutionsByWordCount` derived value: a sparse array indexed
by word count, filled by pushing each solution (in flat order) onto the
bucket at its word count.  The sparse array is embedded as a total function
`Nat → List (List Char)` whose value at an untouched index is `[]`. -/
def solutionsByWordCount (sols : List (List Char)) : Nat → List (List Char) :=
  sols.foldl
    (fun grouped solution =>
      let k := wordCount solution
      fun i => if i = k then grouped k ++ [solution] else grouped i)
    (fun _ => [])

theorem solutionsByWordCount_eq_filter (sols : List (List Char)) (k : Nat) :
    solutionsByWordCount sols k = sols.filter (fun s => wordCount s == k) := by
  suffices h : ∀ (g : Nat → List (List Char)),
      (sols.foldl
        (fun grouped solution =>
          let j := wordCount solution
          fun i => if i = j then grouped j ++ [solution] else grouped i) g) k
        = g k ++ sols.filter (fun s => wordCount s == k) by
    simpa [solutionsByWordCount] using h (fun _ => [])
  induction sols with
  | nil => intro g; simp
  | cons s rest ih =>
    intro g
    simp only [List.foldl_cons, ih, List.filter_cons]
    by_cases hk : k = wordCount s
    · subst hk; simp
    · have : (wordCount s == k) = false := by
        simp [beq_iff_eq]; omega
      simp [this, if_neg hk, beq_iff_eq]

/-- JS array length of the sparse `grouped` array: one more than the largest
index written, `0` when nothing was pushed. -/
def groupedArrayLength (sols : List (List Char)) : Nat :=
  sols.foldl (fun n solution => max n (wordCount solution + 1)) 0

theorem le_foldl_maxWordCount (sols : List (List Char)) :
    ∀ n : Nat, n ≤ sols.foldl (fun n solution => max n (wordCount solution + 1)) n := by
  induction sols with
  | nil => intro n; simp
  | cons s rest ih =>
    intro n
    calc n ≤ max n (wordCount s + 1) := le_max_left _ _
    _ ≤ rest.foldl (fun n solution => max n (wordCount solution + 1))
          (max n (wordCount s + 1)) := ih _
    _ = (s :: rest).foldl (fun n solution => max n (wordCount solution + 1)) n := by
          simp [List.foldl_cons]

theorem groupedArrayLength_lt (sols : List (List Char)) (s : List Char)
    (hs : s ∈ sols) : wordCount s < groupedArrayLength sols := by
  unfold groupedArrayLength
  induction sols with
  | nil => cases hs
  | cons t rest ih =>
    rcases List.mem_cons.mp hs with h | h
    · subst h
      have h1 : wordCount s + 1 ≤ max 0 (wordCount s + 1) := le_max_right _ _
      have h2 := le_foldl_maxWordCount rest (max 0 (wordCount s + 1))
      simp only [List.foldl_cons]
      omega
    · have := ih h
      simp only [List.foldl_cons]
      -- restart the fold from the larger seed
      have hmono : ∀ (l : List (List Char)) (a b : Nat), a ≤ b →
          l.foldl (fun n solution => max n (wordCount solution + 1)) a ≤
          l.foldl (fun n solution => max n (wordCount solution + 1)) b := by
        intro l
        induction l with
        | nil => intro a b hab; simpa using hab
        | cons u us ihu =>
          intro a b hab
          simp only [List.foldl_cons]
          exact ihu _ _ (by omega)
      have := hmono rest 0 (max 0 (wordCount t + 1)) (Nat.zero_le _)
      omega

end Solutions

/-! ## Generic comparator-based sorting

Embeds JS `Array.prototype.sort(comparator)` (stable since ES2019) as a
stable insertion sort parameterised by a boolean "less or equal" test. -/

def insertSorted {α : Type} (le : α → α → Bool) (a : α) : List α → List α
  | [] => [a]
  | b :: l => if le a b then a :: b :: l else b :: insertSorted le a l

def insertionSortBy {α : Type} (le : α → α → Bool) : List α → List α
  | [] => []
  | a :: l => insertSorted le a (insertionSortBy le l)

theorem mem_insertSorted {α : Type} (le : α → α → Bool) (a x : α) (l : List α) :
    x ∈ insertSorted le a l ↔ x = a ∨ x ∈ l := by
  induction l with
  | nil => simp [insertSorted]
  | cons b t ih =>
    simp only [insertSorted]
    split
    · simp [List.mem_cons]
    · simp [List.mem_cons, ih]; tauto

theorem mem_insertionSortBy {α : Type} (le : α → α → Bool) (x : α) (l : List α) :
    x ∈ insertionSortBy le l ↔ x ∈ l := by
  induction l with
  | nil => simp [insertionSortBy]
  | cons a t ih => simp [insertionSortBy, mem_insertSorted, ih]

theorem insertionSortBy_eq_self {α : Type} (le : α → α → Bool) (l : List α)
    (h : l.Pairwise (fun a b => le a b = true)) : insertionSortBy le l = l := by
  induction l with
  | nil => rfl
  | cons a t ih =>
    rcases List.pairwise_cons.mp h with ⟨ha, ht⟩
    simp only [insertionSortBy, ih ht]
    cases t with
    | nil => rfl
    | cons b u =>
      simp only [insertSorted, if_pos (ha b (List.mem_cons_self b u))]

namespace Solutions

/-- Embeds `getWordCounts`: iterate the indices of the sparse `grouped`
array (callbacks of `map` and `filter` skip holes, so the surviving indices
are exactly the pushed ones, all of which carry a non-empty bucket), keep
those with a non-empty bucket, and sort numerically ascending. -/
def getWordCounts (sols : List (List Char)) : List Nat :=
  insertionSortBy (fun a b => a ≤ b)
    ((List.range (groupedArrayLength sols)).filter
      (fun idx => 0 < (solutionsByWordCount sols idx).length))

/-- The three sort orders of the solutions modal. -/
inductive SortOrder where
  | best
  | alphabetical
  | byLength
deriving DecidableEq

/-- Code-point lexicographic order, standing in for the (locale-dependent)
`localeCompare` used by the alphabetical sort order. -/
def localeCompareLe : List Char → List Char → Bool
  | [], _ => true
  | _ :: _, [] => false
  | a :: as, b :: bs => if a = b then localeCompareLe as bs else decide (a < b)

/-- Embeds `getSortedSolutions`: copies the array, sorts the copy for the
`alphabetical` and `length` orders, and for `best` keeps the original
order (already sorted by score from the solver). -/
def getSortedSolutions (solutionsArray : List (List Char)) : SortOrder → List (List Char)
  | .alphabetical => insertionSortBy localeCompareLe solutionsArray
  | .byLength =>
      insertionSortBy
        (fun a b => (parseSolution a).length ≤ (parseSolution b).length)
        solutionsArray
  | .best => solutionsArray

/-- **C7.** For every words field `w` without a colon and every score field
`s` without a colon, parsing the encoded solution string `w ++ ":" ++ s`
recovers `words = w` and `score = s`, and the computed `length` is the
number of non-hyphen characters of `w`. -/
theorem parseSolution_roundtrip (w s : List Char) (hw : ':' ∉ w) (hs : ':' ∉ s) :
    parseSolution (w ++ ':' :: s) =
      { words := w, score := s, length := (w.filter (fun a => a != '-')).length } := by
  have hsplit : splitOnChar ':' (w ++ ':' :: s) = w :: [s] := by
    rw [splitOnChar_append ':' w s hw, splitOnChar_of_not_mem ':' s hs]
  simp [parseSolution, hsplit]

/-- **C7 witness.** Concrete round-trip: `"abc-de:12"`. -/
theorem parseSolution_roundtrip_witness :
    parseSolution ['a', 'b', 'c', '-', 'd', 'e', ':', '1', '2'] =
      { words := ['a', 'b', 'c', '-', 'd', 'e'], score := ['1', '2'], length := 5 } := by
  have h := parseSolution_roundtrip ['a', 'b', 'c', '-', 'd', 'e'] ['1', '2']
    (by decide) (by decide)
  simpa using h

/-- **C6.** Regrouping the flat solution list by word count:
the enumerated word counts are strictly ascending; a word count is
enumerated exactly when its bucket is non-empty; and each bucket — which the
default `best` sort order returns unchanged — is exactly the order-preserving
restriction (filter) of the flat list to that word count. -/
theorem regroup_ascending_preserves_order (sols : List (List Char)) :
    List.Sorted (· < ·) (getWordCounts sols)
    ∧ (∀ k : Nat, k ∈ getWordCounts sols ↔ solutionsByWordCount sols k ≠ [])
    ∧ (∀ k : Nat,
        getSortedSolutions (solutionsByWordCount sols k) SortOrder.best =
          sols.filter (fun s => wordCount s == k)) := by
  have hfilterSorted :
      List.Sorted (· < ·)
        ((List.range (groupedArrayLength sols)).filter
          (fun idx => 0 < (solutionsByWordCount sols idx).length)) :=
    List.Pairwise.filter _ (List.pairwise_lt_range _)
  have hsortSelf :
      getWordCounts sols =
        (List.range (groupedArrayLength sols)).filter
          (fun idx => 0 < (solutionsByWordCount sols idx).length) := by
    unfold getWordCounts
    exact insertionSortBy_eq_self _ _
      (hfilterSorted.imp (fun hab => by simpa using Nat.le_of_lt hab))
  refine ⟨hsortSelf ▸ hfilterSorted, fun k => ?_, fun k => ?_⟩
  · rw [hsortSelf, List.mem_filter, List.mem_range]
    constructor
    · rintro ⟨-, hlen⟩
      simp only [decide_eq_true_eq] at hlen
      intro hnil
      rw [hnil] at hlen
      simp at hlen
    · intro hne
      have hx : ∃ x, x ∈ solutionsByWordCount sols k := by
        cases h : solutionsByWordCount sols k with
        | nil => exact absurd h hne
        | cons a t => exact ⟨a, h ▸ List.mem_cons_self a t⟩
      rcases hx with ⟨x, hx⟩
      have hxs : x ∈ sols ∧ wordCount x = k := by
        have := (solutionsByWordCount_eq_filter sols k) ▸ hx
        rcases List.mem_filter.mp this with ⟨h1, h2⟩
        exact ⟨h1, by simpa using h2⟩
      refine ⟨hxs.2 ▸ groupedArrayLength_lt sols x hxs.1, ?_⟩
      simp only [decide_eq_true_eq]
      cases h : solutionsByWordCount sols k with
      | nil => exact absurd h hne
      | cons a t => simp
  · simpa [getSortedSolutions] using solutionsByWordCount_eq_filter sols k

/-- **C6 witness.** Concrete regrouping of the flat list
`["ab-cd:3", "efg:1", "hi-jk:4"]`: word counts `[1, 2]`, and the 2-word
bucket keeps the flat order. -/
theorem regroup_ascending_preserves_order_witness :
    getWordCounts [['a', 'b', '-', 'c', 'd', ':', '3'],
                   ['e', 'f', 'g', ':', '1'],
                   ['h', 'i', '-', 'j', 'k', ':', '4']] = [1, 2]
    ∧ solutionsByWordCount [['a', 'b', '-', 'c', 'd', ':', '3'],
                   ['e', 'f', 'g', ':', '1'],
                   ['h', 'i', '-', 'j', 'k', ':', '4']] 2 =
        [['a', 'b', '-', 'c', 'd', ':', '3'], ['h', 'i', '-', 'j', 'k', ':', '4']] := by
  have h := regroup_ascending_preserves_order
    [['a', 'b', '-', 'c', 'd', ':', '3'],
     ['e', 'f', 'g', ':', '1'],
     ['h', 'i', '-', 'j', 'k', ':', '4']]
  refine ⟨by decide, ?_⟩
  have h2 := h.2.2 2
  simp only [getSortedSolutions] at h2
  rw [h2]
  decide

end Solutions

/-! ## Caller-side solver store

Embeds the worker-message listener of
`src/web/svelte-app/src/stores/solver-worker.ts`.  The five writable stores
are gathered in one record; the listener is a pure state transformer. -/

namespace Store

/-- The `solveStats` store value. -/
structure SolveStats where
  totalCount : Nat
  duration : Option Nat
deriving DecidableEq, Repr

/-- The five writable stores of `solver-worker.ts`. -/
structure StoreState where
  solverReady : Bool
  solving : Bool
  solutions : List String
  solveStats : SolveStats
  solverError : Option String
deriving DecidableEq, Repr

/-- The `WorkerMessage` interface: `type` is a plain string, every other
field optional (`undefined` embedded as `none`). -/
structure WorkerMessage where
  type : String
  solveId : Option Nat := none
  solutions : Option (List String) := none
  totalCount : Option Nat := none
  duration : Option Nat := none
  error : Option String := none
deriving DecidableEq, Repr

/-- Embeds the `message` listener installed by `initializeSolverWorker`.
`currentSolveId` is the module-level counter at the time the message
arrives.  The four `if` statements of the source are sequential (not
chained with `else`), so each is applied in turn.  In the COMPLETE branch
the guard is `solveId === currentSolveId && receivedSolutions`: an absent
`solveId` (strict-)equals no number, and `receivedSolutions` is truthy iff
present (an empty array is truthy). -/
def storeOnMessage (currentSolveId : Nat) (st : StoreState) (m : WorkerMessage) :
    StoreState :=
  let st := if m.type = "READY" then { st with solverReady := true } else st
  let st :=
    if m.type = "COMPLETE" then
      if m.solveId = some currentSolveId ∧ m.solutions.isSome then
        let st := { st with solutions := m.solutions.getD [], solving := false }
        if m.totalCount.isSome ∧ m.duration.isSome then
          { st with solveStats :=
              { totalCount := m.totalCount.getD 0, duration := m.duration } }
        else st
      else st
    else st
  let st := if m.type = "CANCELLED" then { st with solving := false } else st
  if m.type = "ERROR" then
    { st with solverError := some (m.error.getD "Unknown error"), solving := false }
  else st

/-- **C5.** A COMPLETE message whose `solveId` differs from the store's
`currentSolveId` leaves the `solutions`, `solving` and `solveStats` stores
exactly as they were. -/
theorem stale_complete_ignored (currentSolveId : Nat) (st : StoreState)
    (m : WorkerMessage) (htype : m.type = "COMPLETE")
    (hid : m.solveId ≠ some currentSolveId) :
    (storeOnMessage currentSolveId st m).solutions = st.solutions
    ∧ (storeOnMessage currentSolveId st m).solving = st.solving
    ∧ (storeOnMessage currentSolveId st m).solveStats = st.solveStats := by
  have hguard : ¬(m.solveId = some currentSolveId ∧ m.solutions.isSome) := by
    intro h; exact hid h.1
  simp only [storeOnMessage, htype]
  have h1 : ("COMPLETE" : String) = "READY" ↔ False := by simp
  have h2 : ("COMPLETE" : String) = "CANCELLED" ↔ False := by simp
  have h3 : ("COMPLETE" : String) = "ERROR" ↔ False := by simp
  simp [h1, h2, h3, hguard]

/-- **C5 witness.** A COMPLETE message with `solveId = 2` arriving while
`currentSolveId = 1` leaves the three stores of a concrete state unchanged. -/
theorem stale_complete_ignored_witness :
    (storeOnMessage 1
        { solverReady := true, solving := true, solutions := ["old:1"],
          solveStats := { totalCount := 1, duration := some 7 },
          solverError := none }
        { type := "COMPLETE", solveId := some 2,
          solutions := some ["new:2"], totalCount := some 1,
          duration := some 3 }).solutions = ["old:1"]
    ∧ (storeOnMessage 1
        { solverReady := true, solving := true, solutions := ["old:1"],
          solveStats := { totalCount := 1, duration := some 7 },
          solverError := none }
        { type := "COMPLETE", solveId := some 2,
          solutions := some ["new:2"], totalCount := some 1,
          duration := some 3 }).solving = true
    ∧ (storeOnMessage 1
        { solverReady := true, solving := true, solutions := ["old:1"],
          solveStats := { totalCount := 1, duration := some 7 },
          solverError := none }
        { type := "COMPLETE", solveId := some 2,
          solutions := some ["new:2"], totalCount := some 1,
          duration := some 3 }).solveStats = { totalCount := 1, duration := some 7 } :=
  stale_complete_ignored 1
    { solverReady := true, solving := true, solutions := ["old:1"],
      solveStats := { totalCount := 1, duration := some 7 }, solverError := none }
    { type := "COMPLETE", solveId := some 2, solutions := some ["new:2"],
      totalCount := some 1, duration := some 3 }
    rfl (by decide)

end Store

/-! ## Solver web worker

Embeds the `message` listener of the solver worker (`src/unnamed/part_003`).

The listener is `async`: each SOLVE handler suspends at `await wasmReady`
and at `await solve_game(...)`, so across requests the observable behaviour
is an interleaving of atomic segments.  A run of the worker is embedded as
a list of `WorkerEvent`s, each one atomic segment:

* `solveStart id` — the SOLVE handler resumes after `await wasmReady` and
  executes `currentSolveId = solveId ?? null` and the `solve_game` call;
* `solveResolve id sols dur` — the continuation after `solve_game`
  resolves: post COMPLETE iff `currentSolveId === solveId`, then clear
  `currentSolveId` (only in that case);
* `solveReject id msg` — the `catch` handler: post CANCELLED when the
  message is a cancellation, otherwise ERROR, then always clear
  `currentSolveId`;
* `cancel` — the CANCEL handler: `cancel_current_solve()` and
  `currentSolveId = null`.

Which resolve/reject events can follow which starts is constrained by
hypotheses in the theorems, not baked into the step function. -/

namespace Worker

/-- The `OutgoingMessage` interface of the worker. -/
structure OutgoingMessage where
  type : String
  solveId : Option Nat := none
  solutions : Option (List String) := none
  totalCount : Option Nat := none
  duration : Option Nat := none
  error : Option String := none
deriving DecidableEq, Repr

/-- Worker-local mutable state: `currentSolveId` plus the ordered log of
`self.postMessage` calls. -/
structure WorkerState where
  currentSolveId : Option Nat
  posted : List OutgoingMessage
deriving DecidableEq, Repr

/-- One atomic segment of the (async) message listener. -/
inductive WorkerEvent where
  | solveStart (id : Option Nat)
  | solveResolve (id : Option Nat) (sols : List String) (dur : Nat)
  | solveReject (id : Option Nat) (msg : String)
  | cancel
deriving DecidableEq, Repr

/-- JS strict equality `currentSolveId === solveId` where the left side is
`number | null` and the right side `number | undefined`: two numbers compare
numerically, and `null === undefined` is `false`. -/
def jsIdEq : Option Nat → Option Nat → Bool
  | some a, some b => a == b
  | _, _ => false

/-- The worker's cancellation test:
`errorMessage === 'Cancelled' || errorMessage.includes('already in progress')`. -/
def isCancellationError (msg : String) : Bool :=
  msg == "Cancelled" || decide ("already in progress".data <:+: msg.data)

/-- The COMPLETE message posted on a still-current resolution. -/
def completeMessage (id : Option Nat) (sols : List String) (dur : Nat) :
    OutgoingMessage :=
  { type := "COMPLETE", solveId := id, solutions := some sols,
    totalCount := some sols.length, duration := some dur }

/-- The CANCELLED message posted from the `catch` handler. -/
def cancelledMessage (id : Option Nat) : OutgoingMessage :=
  { type := "CANCELLED", solveId := id }

/-- The ERROR message posted from the `catch` handler. -/
def errorMessage (id : Option Nat) (msg : String) : OutgoingMessage :=
  { type := "ERROR", solveId := id, error := some msg }

/-- The messages one event posts, given the state it runs in. -/
def workerEmit (st : WorkerState) : WorkerEvent → List OutgoingMessage
  | .solveStart _ => []
  | .solveResolve id sols dur =>
      if jsIdEq st.currentSolveId id then [completeMessage id sols dur] else []
  | .solveReject id msg =>
      [if isCancellationError msg then cancelledMessage id else errorMessage id msg]
  | .cancel => []

/-- State transition of one event, appending whatever it posts. -/
def workerStep (st : WorkerState) : WorkerEvent → WorkerState
  | .solveStart id => { st with currentSolveId := id }
  | .solveResolve id sols dur =>
      if jsIdEq st.currentSolveId id then
        { currentSolveId := none,
          posted := st.posted ++ [completeMessage id sols dur] }
      else st
  | .solveReject id msg =>
      { currentSolveId := none,
        posted := st.posted ++
          [if isCancellationError msg then cancelledMessage id
           else errorMessage id msg] }
  | .cancel => { st with currentSolveId := none }

def runFrom (st : WorkerState) (t : List WorkerEvent) : WorkerState :=
  t.foldl workerStep st

def initialWorkerState : WorkerState := { currentSolveId := none, posted := [] }

def runWorker (t : List WorkerEvent) : WorkerState := runFrom initialWorkerState t

/-- The messages posted while processing the events `t` starting from `st`. -/
def emits (st : WorkerState) : List WorkerEvent → List OutgoingMessage
  | [] => []
  | e :: t => workerEmit st e ++ emits (workerStep st e) t

theorem workerStep_posted (st : WorkerState) (e : WorkerEvent) :
    (workerStep st e).posted = st.posted ++ workerEmit st e := by
  cases e with
  | solveStart id => simp [workerStep, workerEmit]
  | solveResolve id sols dur =>
      simp only [workerStep, workerEmit]
      split <;> simp
  | solveReject id msg => simp [workerStep, workerEmit]
  | cancel => simp [workerStep, workerEmit]

theorem runFrom_posted (t : List WorkerEvent) :
    ∀ st : WorkerState, (runFrom st t).posted = st.posted ++ emits st t := by
  induction t with
  | nil => intro st; simp [runFrom, emits]
  | cons e t ih =>
    intro st
    simp only [runFrom, List.foldl_cons, emits]
    rw [show List.foldl workerStep (workerStep st e) t = runFrom (workerStep st e) t
          from rfl,
        ih (workerStep st e), workerStep_posted, List.append_assoc]

theorem runFrom_append (st : WorkerState) (t₁ t₂ : List WorkerEvent) :
    runFrom st (t₁ ++ t₂) = runFrom (runFrom st t₁) t₂ := by
  simp [runFrom, List.foldl_append]

/-- A terminal message for request id `i`. -/
def isTerminalFor (i : Nat) (m : OutgoingMessage) : Bool :=
  (m.type == "COMPLETE" || m.type == "CANCELLED" || m.type == "ERROR")
    && m.solveId == some i

/-- The events that settle the `solve_game` promise of request id `i`. -/
def isResolutionFor (i : Nat) : WorkerEvent → Bool
  | .solveResolve id _ _ => id == some i
  | .solveReject id _ => id == some i
  | _ => false

theorem currentSolveId_preserved (st : WorkerState) (e : WorkerEvent) (i : Nat)
    (hst : st.currentSolveId ≠ some i) (he : e ≠ .solveStart (some i)) :
    (workerStep st e).currentSolveId ≠ some i := by
  cases e with
  | solveStart id =>
      simp only [workerStep]
      intro h
      exact he (by rw [h])
  | solveResolve id sols dur =>
      simp only [workerStep]
      split <;> simp [hst]
  | solveReject id msg => simp [workerStep]
  | cancel => simp [workerStep]

theorem emits_no_complete_for (i : Nat) :
    ∀ (t : List WorkerEvent) (st : WorkerState),
      st.currentSolveId ≠ some i →
      WorkerEvent.solveStart (some i) ∉ t →
      ∀ m ∈ emits st t, ¬(m.type = "COMPLETE" ∧ m.solveId = some i) := by
  intro t
  induction t with
  | nil => intro st _ _ m hm; cases hm
  | cons e t ih =>
    intro st hst ht m hm
    have htHead : e ≠ WorkerEvent.solveStart (some i) := by
      intro h; exact ht (h ▸ List.mem_cons_self e t)
    have htTail : WorkerEvent.solveStart (some i) ∉ t := by
      intro h; exact ht (List.mem_cons_of_mem e h)
    rcases List.mem_append.mp hm with hm | hm
    · cases e with
      | solveStart id => cases hm
      | solveResolve id sols dur =>
          simp only [workerEmit] at hm
          split at hm
          · rename_i hguard
            rcases List.mem_singleton.mp hm with rfl
            rintro ⟨-, hid⟩
            simp only [completeMessage] at hid
            rw [hid] at hguard
            cases hcur : st.currentSolveId with
            | none => rw [hcur] at hguard; cases hguard
            | some a =>
                rw [hcur] at hguard
                simp only [jsIdEq, beq_iff_eq] at hguard
                exact hst (by rw [hcur, hguard])
          · cases hm
      | solveReject id msg =>
          simp only [workerEmit] at hm
          rcases List.mem_singleton.mp hm with rfl
          rintro ⟨htype, -⟩
          split at htype <;> simp [cancelledMessage, errorMessage] at htype
      | cancel => cases hm
    · exact ih (workerStep st e) (currentSolveId_preserved st e i hst htHead) htTail m hm

theorem emits_cancelled_of_reject (oi : Option Nat) :
    ∀ (t : List WorkerEvent) (st : WorkerState),
      WorkerEvent.solveReject oi "Cancelled" ∈ t →
      ∃ m ∈ emits st t, m.type = "CANCELLED" ∧ m.solveId = oi := by
  intro t
  induction t with
  | nil => intro st h; cases h
  | cons e t ih =>
    intro st h
    rcases List.mem_cons.mp h with h | h
    · subst h
      refine ⟨cancelledMessage oi, ?_, rfl, rfl⟩
      simp only [emits, workerEmit]
      have : isCancellationError "Cancelled" = true := by decide
      simp [this]
    · rcases ih (workerStep st e) h with ⟨m, hm, hprop⟩
      exact ⟨m, List.mem_append.mpr (Or.inr hm), hprop⟩

theorem emits_no_error_for (i : Nat) :
    ∀ (t : List WorkerEvent) (st : WorkerState),
      (∀ msg, WorkerEvent.solveReject (some i) msg ∈ t →
        isCancellationError msg = true) →
      ∀ m ∈ emits st t, ¬(m.type = "ERROR" ∧ m.solveId = some i) := by
  intro t
  induction t with
  | nil => intro st _ m hm; cases hm
  | cons e t ih =>
    intro st hres m hm
    rcases List.mem_append.mp hm with hm | hm
    · cases e with
      | solveStart id => cases hm
      | solveResolve id sols dur =>
          simp only [workerEmit] at hm
          split at hm
          · rcases List.mem_singleton.mp hm with rfl
            rintro ⟨htype, -⟩
            simp [completeMessage] at htype
          · cases hm
      | solveReject id msg =>
          simp only [workerEmit] at hm
          rcases List.mem_singleton.mp hm with rfl
          rintro ⟨htype, hid⟩
          by_cases hcanc : isCancellationError msg = true
          · rw [if_pos hcanc] at htype
            simp [cancelledMessage] at htype
          · rw [if_neg hcanc] at htype hid
            simp only [errorMessage] at hid
            exact hcanc (hres msg (hid ▸ List.mem_cons_self _ t))
      | cancel => cases hm
    · exact ih (workerStep st e)
        (fun msg hmsg => hres msg (List.mem_cons_of_mem e hmsg)) m hm

theorem filter_terminal_emits_le (i : Nat) :
    ∀ (t : List WorkerEvent) (st : WorkerState),
      ((emits st t).filter (isTerminalFor i)).length ≤
        (t.filter (isResolutionFor i)).length := by
  intro t
  induction t with
  | nil => intro st; simp [emits]
  | cons e t ih =>
    intro st
    simp only [emits, List.filter_append, List.length_append, List.filter_cons]
    have hlen1 : ((workerEmit st e).filter (isTerminalFor i)).length ≤ 1 := by
      have hle : (workerEmit st e).length ≤ 1 := by
        cases e <;> simp only [workerEmit] <;> first | simp | (split <;> simp)
      calc ((workerEmit st e).filter (isTerminalFor i)).length
          ≤ (workerEmit st e).length := List.length_filter_le _ _
        _ ≤ 1 := hle
    have hzero : isResolutionFor i e = false →
        (workerEmit st e).filter (isTerminalFor i) = [] := by
      intro hresf
      cases e with
      | solveStart id => simp [workerEmit]
      | solveResolve id sols dur =>
          simp only [isResolutionFor] at hresf
          simp only [workerEmit]
          split
          · simp [isTerminalFor, completeMessage, hresf]
          · rfl
      | solveReject id msg =>
          simp only [isResolutionFor] at hresf
          simp only [workerEmit]
          split <;> simp [isTerminalFor, cancelledMessage, errorMessage, hresf]
      | cancel => simp [workerEmit]
    have htail := ih (workerStep st e)
    by_cases hres : isResolutionFor i e = true
    · rw [if_pos hres]
      simp only [List.length_cons]
      omega
    · rw [if_neg hres, hzero (Bool.not_eq_true _ ▸ hres)]
      simpa using htail

/-- **C2 counterexample.** A SOLVE with id 1 is received, a SOLVE with id 2
supersedes it, and then solve 1's `solve_game` promise resolves
successfully: the worker posts **no** message at all — in particular zero
terminal messages carry id 1, refuting "never zero" for that request. -/
theorem superseded_resolve_posts_nothing :
    (runWorker [WorkerEvent.solveStart (some 1), WorkerEvent.solveStart (some 2),
        WorkerEvent.solveResolve (some 1) [] 5]).posted = []
    ∧ ((runWorker [WorkerEvent.solveStart (some 1), WorkerEvent.solveStart (some 2),
        WorkerEvent.solveResolve (some 1) [] 5]).posted.filter
          (isTerminalFor 1)).length = 0 := by
  constructor <;> rfl

/-- **C2 (amended).** Per solve request id the worker posts *at most one*
terminal message (never two), provided the id's `solve_game` promise
settles at most once; a superseded request whose promise resolves
successfully produces none. -/
theorem terminal_message_at_most_one (t : List WorkerEvent) (i : Nat)
    (h : (t.filter (isResolutionFor i)).length ≤ 1) :
    (((runWorker t).posted).filter (isTerminalFor i)).length ≤ 1 := by
  have hposted : (runWorker t).posted = emits initialWorkerState t := by
    rw [runWorker, runFrom_posted]
    rfl
  rw [hposted]
  exact le_trans (filter_terminal_emits_le i t initialWorkerState) h

/-- **C2 witness.** A started solve whose promise rejects with `'Cancelled'`
settles once, and the run posts at most one terminal message for its id. -/
theorem terminal_message_at_most_one_witness :
    (((runWorker [WorkerEvent.solveStart (some 1),
        WorkerEvent.solveReject (some 1) "Cancelled"]).posted).filter
          (isTerminalFor 1)).length ≤ 1 :=
  terminal_message_at_most_one
    [WorkerEvent.solveStart (some 1), WorkerEvent.solveReject (some 1) "Cancelled"]
    1 (by decide)

/-- **C3.** If a SOLVE with id `j` is processed while the SOLVE with id
`i ≠ j` is still in flight (no further SOLVE with id `i` follows), then no
message posted from that point on is a COMPLETE for `i`; and when the
superseded solve's promise then rejects with `'Cancelled'` (the outcome the
WASM layer's automatic cancellation produces), a CANCELLED message with id
`i` is posted. -/
theorem supersede_no_stale_complete (pre post : List WorkerEvent) (i j : Nat)
    (hij : i ≠ j) (hpost : WorkerEvent.solveStart (some i) ∉ post) :
    (∀ m ∈ emits (runWorker (pre ++ [WorkerEvent.solveStart (some j)])) post,
        ¬(m.type = "COMPLETE" ∧ m.solveId = some i))
    ∧ (WorkerEvent.solveReject (some i) "Cancelled" ∈ post →
        ∃ m ∈ emits (runWorker (pre ++ [WorkerEvent.solveStart (some j)])) post,
          m.type = "CANCELLED" ∧ m.solveId = some i) := by
  have hcur : (runWorker (pre ++ [WorkerEvent.solveStart (some j)])).currentSolveId
      = some j := by
    rw [runWorker, runFrom_append]
    rfl
  refine ⟨?_, fun hrej => emits_cancelled_of_reject (some i) post _ hrej⟩
  apply emits_no_complete_for i post _ _ hpost
  rw [hcur]
  simp [hij.symm]

/-- **C3 witness.** Concretely: solve 1 starts, solve 2 supersedes it, and
solve 1 then rejects with `'Cancelled'`; a CANCELLED message with id 1 is
posted after the supersession and no COMPLETE for id 1 is. -/
theorem supersede_no_stale_complete_witness :
    (∀ m ∈ emits (runWorker ([WorkerEvent.solveStart (some 1)] ++
          [WorkerEvent.solveStart (some 2)]))
        [WorkerEvent.solveReject (some 1) "Cancelled"],
        ¬(m.type = "COMPLETE" ∧ m.solveId = some 1))
    ∧ (WorkerEvent.solveReject (some 1) "Cancelled" ∈
          [WorkerEvent.solveReject (some 1) "Cancelled"] →
        ∃ m ∈ emits (runWorker ([WorkerEvent.solveStart (some 1)] ++
            [WorkerEvent.solveStart (some 2)]))
          [WorkerEvent.solveReject (some 1) "Cancelled"],
          m.type = "CANCELLED" ∧ m.solveId = some 1) :=
  supersede_no_stale_complete [WorkerEvent.solveStart (some 1)]
    [WorkerEvent.solveReject (some 1) "Cancelled"] 1 2
    (by decide) (by simp)

/-- **C4.** After a CANCEL is processed while solve `i` is in flight (no
SOLVE with id `i` follows, and the only way `i`'s promise can settle from
then on is the rejection with `'Cancelled'` that cancellation produces),
the worker never posts a COMPLETE for `i` nor an ERROR for `i`; and when
the rejection with `'Cancelled'` occurs, a CANCELLED message with id `i`
is posted. -/
theorem cancel_no_complete_then_cancelled (pre post : List WorkerEvent) (i : Nat)
    (hstart : WorkerEvent.solveStart (some i) ∉ post)
    (hres : ∀ msg, WorkerEvent.solveReject (some i) msg ∈ post → msg = "Cancelled") :
    (∀ m ∈ emits (runWorker (pre ++ [WorkerEvent.cancel])) post,
        ¬(m.type = "COMPLETE" ∧ m.solveId = some i)
        ∧ ¬(m.type = "ERROR" ∧ m.solveId = some i))
    ∧ (WorkerEvent.solveReject (some i) "Cancelled" ∈ post →
        ∃ m ∈ emits (runWorker (pre ++ [WorkerEvent.cancel])) post,
          m.type = "CANCELLED" ∧ m.solveId = some i) := by
  have hcur : (runWorker (pre ++ [WorkerEvent.cancel])).currentSolveId = none := by
    rw [runWorker, runFrom_append]
    rfl
  have hcanc : ∀ msg, WorkerEvent.solveReject (some i) msg ∈ post →
      isCancellationError msg = true := by
    intro msg hmsg
    rw [hres msg hmsg]
    decide
  refine ⟨fun m hm => ⟨?_, emits_no_error_for i post _ hcanc m hm⟩,
    fun hrej => emits_cancelled_of_reject (some i) post _ hrej⟩
  apply emits_no_complete_for i post _ _ hstart m hm
  rw [hcur]
  simp

/-- **C4 witness.** Concretely: solve 1 starts, CANCEL is processed, solve 1
rejects with `'Cancelled'`; a CANCELLED message with id 1 is posted and no
COMPLETE or ERROR for id 1 is. -/
theorem cancel_no_complete_then_cancelled_witness :
    (∀ m ∈ emits (runWorker ([WorkerEvent.solveStart (some 1)] ++
          [WorkerEvent.cancel]))
        [WorkerEvent.solveReject (some 1) "Cancelled"],
        ¬(m.type = "COMPLETE" ∧ m.solveId = some 1)
        ∧ ¬(m.type = "ERROR" ∧ m.solveId = some 1))
    ∧ (WorkerEvent.solveReject (some 1) "Cancelled" ∈
          [WorkerEvent.solveReject (some 1) "Cancelled"] →
        ∃ m ∈ emits (runWorker ([WorkerEvent.solveStart (some 1)] ++
            [WorkerEvent.cancel]))
          [WorkerEvent.solveReject (some 1) "Cancelled"],
          m.type = "CANCELLED" ∧ m.solveId = some 1) :=
  cancel_no_complete_then_cancelled [WorkerEvent.solveStart (some 1)]
    [WorkerEvent.solveReject (some 1) "Cancelled"] 1
    (by simp)
    (fun msg hmsg => by
      simp only [List.mem_singleton, WorkerEvent.solveReject.injEq] at hmsg
      exact hmsg.2)

/-! ### INIT handling

The INIT branch is a straight-line `try` block: `await init()`, `fetch`,
the `response.ok` check, `initialize_dictionary`, then `READY`; any throw
lands in the `catch`, which posts one ERROR carrying the failure text.
The outcome of the fallible steps is embedded as an explicit sum. -/

/-- Which step of the INIT `try` block fails first, if any. -/
inductive InitOutcome where
  | wasmInitFailure (msg : String)
  | fetchFailure (msg : String)
  | fetchNotOk (status : Nat) (statusText : String)
  | dictInitFailure (msg : String)
  | success
deriving DecidableEq, Repr

/-- The `error.message` the catch handler sees for each failing outcome;
a fetch with a non-ok status throws
`Error fetching /dictionary.txt: <status> <statusText>`. -/
def initFailureText : InitOutcome → String
  | .wasmInitFailure msg => msg
  | .fetchFailure msg => msg
  | .fetchNotOk status statusText =>
      "Error fetching /dictionary.txt: " ++ toString status ++ " " ++ statusText
  | .dictInitFailure msg => msg
  | .success => ""

/-- Embeds the INIT branch of the message listener: the single message it
posts (READY from the end of the `try` block, ERROR from the `catch`). -/
def handleInit : InitOutcome → OutgoingMessage
  | .success => { type := "READY" }
  | o => { type := "ERROR", error := some (initFailureText o) }

/-- **C9.** Processing INIT posts exactly one message, which is READY
exactly when wasm init, the fetch (with an ok status) and
`initialize_dictionary` all succeeded, and otherwise is an ERROR carrying
the failure text; READY and ERROR are never both posted. -/
theorem init_exactly_one_message (o : InitOutcome) :
    handleInit o =
      (if o = InitOutcome.success then { type := "READY" }
       else { type := "ERROR", error := some (initFailureText o) })
    ∧ ((handleInit o).type = "READY" ↔ o = InitOutcome.success)
    ∧ ((handleInit o).type = "ERROR" ↔ o ≠ InitOutcome.success) := by
  cases o <;> simp [handleInit, initFailureText]

/-- **C9 witness.** A fetch answered with status 404 produces the ERROR
message carrying the failure text, and not READY. -/
theorem init_exactly_one_message_witness :
    handleInit (InitOutcome.fetchNotOk 404 "Not Found") =
      (if InitOutcome.fetchNotOk 404 "Not Found" = InitOutcome.success then
        { type := "READY" }
       else
        { type := "ERROR",
          error := some (initFailureText (InitOutcome.fetchNotOk 404 "Not Found")) })
    ∧ ((handleInit (InitOutcome.fetchNotOk 404 "Not Found")).type = "READY" ↔
        InitOutcome.fetchNotOk 404 "Not Found" = InitOutcome.success)
    ∧ ((handleInit (InitOutcome.fetchNotOk 404 "Not Found")).type = "ERROR" ↔
        InitOutcome.fetchNotOk 404 "Not Found" ≠ InitOutcome.success) :=
  init_exactly_one_message (InitOutcome.fetchNotOk 404 "Not Found")

end Worker

/-! ## App reactive block

Embeds the reactive auto-solve statement of
`src/web/svelte-app/src/App.svelte` (and `isPuzzleComplete` of
`src/web/svelte-app/src/stores/puzzle.ts`, which tests the same predicate
on the same store). -/

namespace App

/-- JS `String.prototype.toLowerCase` restricted to what the app feeds it:
ASCII uppercase maps down by 32 code points, everything else is fixed. -/
def toLowerChar (c : Char) : Char :=
  if 'A' ≤ c ∧ c ≤ 'Z' then Char.ofNat (c.toNat + 32) else c

theorem char_le_iff (a b : Char) : a ≤ b ↔ a.toNat ≤ b.toNat := ge_iff_le

theorem toNat_ofNat_valid (n : Nat) (h : n.isValidChar) :
    (Char.ofNat n).toNat = n := by
  simp only [Char.ofNat, dif_pos h, Char.ofNatAux, Char.toNat]
  rfl

theorem toLowerChar_isLower (c : Char) (h : 'A' ≤ c ∧ c ≤ 'Z') :
    'a' ≤ toLowerChar c ∧ toLowerChar c ≤ 'z' := by
  have h1 : 65 ≤ c.toNat := (char_le_iff 'A' c).mp h.1
  have h2 : c.toNat ≤ 90 := (char_le_iff c 'Z').mp h.2
  have hvalid : (c.toNat + 32).isValidChar := Or.inl (by omega)
  have htl : (toLowerChar c).toNat = c.toNat + 32 := by
    rw [toLowerChar, if_pos h]
    exact toNat_ofNat_valid _ hvalid
  exact ⟨(char_le_iff 'a' _).mpr
      (by rw [htl, show ('a' : Char).toNat = 97 from rfl]; omega),
    (char_le_iff _ 'z').mpr
      (by rw [htl, show ('z' : Char).toNat = 122 from rfl]; omega)⟩

/-- The regex test `/^[A-Z]$/.test(f)`: the string is exactly one character
in the class `A`–`Z`. -/
def regexUpperAZ (f : String) : Bool :=
  match f.data with
  | [c] => 'A' ≤ c && c ≤ 'Z'
  | _ => false

/-- The per-field validity test used both by the reactive block of
`App.svelte` and by `isPuzzleComplete` in `puzzle.ts`:
`field.length === 1 && /^[A-Z]$/.test(field)`. -/
def isCompleteField (f : String) : Bool :=
  f.length == 1 && regexUpperAZ f

/-- JS `Array.prototype.join('')` over the one-character field strings,
written at the character-list level. -/
def joinFields (l : List String) : String :=
  ⟨(l.map String.data).join⟩

/-- JS `.toLowerCase()` of a string, at the character-list level. -/
def jsToLowerCase (s : String) : String :=
  ⟨s.data.map toLowerChar⟩

/-- The side strings the reactive block builds from a complete puzzle:
slices `0-3` (top), `3-6` (right), `9-12` (bottom), `6-9` (left), each
joined and lower-cased. -/
def sidesFromFields (fields : List String) : List String :=
  [joinFields ((fields.drop 0).take 3),
   joinFields ((fields.drop 3).take 3),
   joinFields ((fields.drop 9).take 3),
   joinFields ((fields.drop 6).take 3)].map jsToLowerCase

/-- What the reactive statement does, as an action. `clearSolutions` is
`solutions.set([])` with no solve issued; `issueSolve sides` is the
(throttled) `workerSolvePuzzle(sides)` call; `waitReady` is the valid-but-
not-ready case, where nothing happens. -/
inductive AppAction where
  | clearSolutions
  | issueSolve (sides : List String)
  | waitReady
deriving DecidableEq, Repr

/-- Embeds the reactive auto-solve block of `App.svelte`. -/
def appReactiveBlock (fields : List String) (solverReady : Bool) : AppAction :=
  if fields.all isCompleteField then
    if solverReady then AppAction.issueSolve (sidesFromFields fields)
    else AppAction.waitReady
  else AppAction.clearSolutions

theorem isCompleteField_spec (f : String) (h : isCompleteField f = true) :
    ∃ c : Char, f.data = [c] ∧ 'A' ≤ c ∧ c ≤ 'Z' := by
  unfold isCompleteField at h
  rcases (Bool.and_eq_true _ _ ▸ h :
      (f.length == 1) = true ∧ regexUpperAZ f = true) with ⟨-, hregex⟩
  unfold regexUpperAZ at hregex
  match hf : f.data with
  | [] => rw [hf] at hregex; cases hregex
  | [c] =>
      rw [hf] at hregex
      exact ⟨c, rfl, by simpa using hregex⟩
  | _ :: _ :: _ => rw [hf] at hregex; cases hregex

/-- **C8.** With twelve puzzle fields: if some field is not a single
uppercase letter, the reactive block clears the solutions and issues no
solve; and whenever a solve is issued, all twelve fields are single
uppercase letters and the payload is four side strings of three lowercase
(`a`–`z`) characters whose characters are, as a multiset, exactly the
lower-cased field characters. -/
theorem reactive_guard_and_payload (fields : List String) (ready : Bool)
    (hlen : fields.length = 12) :
    (fields.all isCompleteField ≠ true →
      appReactiveBlock fields ready = AppAction.clearSolutions)
    ∧ (∀ sides, appReactiveBlock fields ready = AppAction.issueSolve sides →
        fields.all isCompleteField = true
        ∧ sides.length = 4
        ∧ (∀ s ∈ sides, s.length = 3 ∧ ∀ c ∈ s.data, 'a' ≤ c ∧ c ≤ 'z')
        ∧ (sides.map String.data).join.Perm
            ((fields.map String.data).join.map toLowerChar)) := by
  constructor
  · intro hbad
    unfold appReactiveBlock
    rw [if_neg hbad]
  · intro sides hsolve
    unfold appReactiveBlock at hsolve
    by_cases hall : fields.all isCompleteField = true
    case neg => rw [if_neg hall] at hsolve; cases hsolve
    rw [if_pos hall] at hsolve
    cases hready : ready
    · rw [hready] at hsolve
      simp at hsolve
    rw [hready, if_pos rfl] at hsolve
    have hsides : sides = sidesFromFields fields := by
      cases hsolve; rfl
    subst hsides
    refine ⟨hall, rfl, ?_, ?_⟩
    all_goals
      match fields, hlen with
      | [f0, f1, f2, f3, f4, f5, f6, f7, f8, f9, f10, f11], _ => ?_
    all_goals
      have hv : ∀ f ∈ [f0, f1, f2, f3, f4, f5, f6, f7, f8, f9, f10, f11],
          ∃ c : Char, f.data = [c] ∧ 'A' ≤ c ∧ c ≤ 'Z' := by
        intro f hf
        exact isCompleteField_spec f (by
          have := List.all_eq_true.mp hall f hf
          simpa using this)
    all_goals
      obtain ⟨c0, hc0, hb0⟩ := hv f0 (by simp)
      obtain ⟨c1, hc1, hb1⟩ := hv f1 (by simp)
      obtain ⟨c2, hc2, hb2⟩ := hv f2 (by simp)
      obtain ⟨c3, hc3, hb3⟩ := hv f3 (by simp)
      obtain ⟨c4, hc4, hb4⟩ := hv f4 (by simp)
      obtain ⟨c5, hc5, hb5⟩ := hv f5 (by simp)
      obtain ⟨c6, hc6, hb6⟩ := hv f6 (by simp)
      obtain ⟨c7, hc7, hb7⟩ := hv f7 (by simp)
      obtain ⟨c8, hc8, hb8⟩ := hv f8 (by simp)
      obtain ⟨c9, hc9, hb9⟩ := hv f9 (by simp)
      obtain ⟨c10, hc10, hb10⟩ := hv f10 (by simp)
      obtain ⟨c11, hc11, hb11⟩ := hv f11 (by simp)
    · -- side shape: three lowercase characters each
      intro s hs
      simp only [sidesFromFields, joinFields, jsToLowerCase, List.map_cons,
        List.map_nil, List.mem_cons, List.not_mem_nil, or_false,
        List.drop, List.take, List.map, List.join,
        hc0, hc1, hc2, hc3, hc4, hc5, hc6, hc7, hc8, hc9, hc10, hc11] at hs
      rcases hs with rfl | rfl | rfl | rfl
      all_goals
        refine ⟨rfl, ?_⟩
        intro c hc
        simp only [String.data, List.mem_cons, List.not_mem_nil, or_false] at hc
        rcases hc with rfl | rfl | rfl <;>
          first
          | exact toLowerChar_isLower _ hb0 | exact toLowerChar_isLower _ hb1
          | exact toLowerChar_isLower _ hb2 | exact toLowerChar_isLower _ hb3
          | exact toLowerChar_isLower _ hb4 | exact toLowerChar_isLower _ hb5
          | exact toLowerChar_isLower _ hb6 | exact toLowerChar_isLower _ hb7
          | exact toLowerChar_isLower _ hb8 | exact toLowerChar_isLower _ hb9
          | exact toLowerChar_isLower _ hb10 | exact toLowerChar_isLower _ hb11
    · -- the sides' characters are a permutation of the lower-cased fields
      simp only [sidesFromFields, joinFields, jsToLowerCase, List.map_cons,
        List.map_nil, List.drop, List.take, List.map, List.join, List.append_nil,
        hc0, hc1, hc2, hc3, hc4, hc5, hc6, hc7, hc8, hc9, hc10, hc11]
      refine List.Perm.append_left _ ?_
      refine List.Perm.append_left _ ?_
      exact List.perm_append_comm

/-- **C8 witness.** A concrete incomplete puzzle (twelfth field empty)
makes the reactive block clear the solutions and issue no solve. -/
theorem reactive_guard_and_payload_witness :
    appReactiveBlock
        ["A", "B", "C", "D", "E", "F", "G", "H", "I", "J", "K", ""] true =
      AppAction.clearSolutions :=
  (reactive_guard_and_payload
      ["A", "B", "C", "D", "E", "F", "G", "H", "I", "J", "K", ""] true
      (by decide)).1 (by decide)

end App

/-! ## Player-solution store

Embeds `appendLetterToPlayerSolution` and `backspacePlayerSolution` from
`src/web/svelte-app/src/stores/puzzle.ts`.  A `Word` is an array of letter
indices (JS numbers, embedded as `Int` so that the negative-index guard is
meaningful); a `PlayerSolution` is an array of words.  The `playMode` store
value read through `get(playMode)` is passed explicitly; the
`!Array.isArray(solution)` branch of the source cannot fire in the typed
embedding and is omitted. -/

namespace Puzzle

/-- `appendLetterToPlayerSolution`: in play mode and with `letterIndex` in
`0`–`11`, push the index onto the last word (`solution[solution.length-1]
?? []`), rebuilding the array as `[...solution.slice(0, -1), lastWord]`. -/
def appendLetterToPlayerSolution (playMode : Bool) (letterIndex : Int)
    (solution : List (List Int)) : List (List Int) :=
  if !playMode then solution
  else if letterIndex < 0 ∨ letterIndex > 11 then solution
  else
    let lastWord := solution.getLast?.getD []
    solution.dropLast ++ [lastWord ++ [letterIndex]]

/-- `backspacePlayerSolution`: in play mode, remove an empty last word,
otherwise shorten the last word by one letter and drop it if it became
empty. -/
def backspacePlayerSolution (playMode : Bool)
    (solution : List (List Int)) : List (List Int) :=
  if !playMode then solution
  else
    match solution.getLast? with
    | none => solution
    | some lastWord =>
      if lastWord = [] then solution.dropLast
      else
        let newLastWord := lastWord.dropLast
        if newLastWord = [] then solution.dropLast
        else solution.dropLast ++ [newLastWord]

theorem backspace_concat (ys : List (List Int)) (y : List Int) :
    backspacePlayerSolution true (ys ++ [y]) =
      if y = [] then ys
      else if y.dropLast = [] then ys
      else ys ++ [y.dropLast] := by
  unfold backspacePlayerSolution
  rw [if_neg (by simp), List.getLast?_concat]
  simp [List.dropLast_concat]

/-- **C10 counterexample.** On the store value `[[], []]` (two empty words)
in play mode, `backspacePlayerSolution` acts (the value changes) and leaves
`[[]]`, whose last element is an empty word — refuting the claim that an
acting backspace never leaves an empty word last. -/
theorem backspace_leaves_empty_last_word :
    backspacePlayerSolution true [([] : List Int), []] = [[]]
    ∧ backspacePlayerSolution true [([] : List Int), []] ≠ [[], []]
    ∧ (backspacePlayerSolution true [([] : List Int), []]).getLast? =
        some ([] : List Int) := by
  refine ⟨rfl, by decide, rfl⟩

/-- **C10 (amended).** The mutators are guarded by mode and range:
`appendLetterToPlayerSolution` is a no-op outside play mode or with a
letter index outside `0`–`11`; `backspacePlayerSolution` is a no-op outside
play mode; and — provided no word other than possibly the last is empty,
as holds for every value the mutators themselves produce —
an acting backspace never leaves an empty word as the last element. -/
theorem player_solution_mutator_guards (solution : List (List Int)) :
    (∀ letterIndex : Int,
      appendLetterToPlayerSolution false letterIndex solution = solution)
    ∧ (∀ letterIndex : Int, letterIndex < 0 ∨ letterIndex > 11 →
      appendLetterToPlayerSolution true letterIndex solution = solution)
    ∧ backspacePlayerSolution false solution = solution
    ∧ ((∀ w ∈ solution.dropLast, w ≠ []) →
      ∀ w, (backspacePlayerSolution true solution).getLast? = some w → w ≠ []) := by
  refine ⟨fun _ => rfl, fun i hi => ?_, rfl, fun hpre w hw => ?_⟩
  · unfold appendLetterToPlayerSolution
    rw [if_neg (by simp), if_pos hi]
  · rcases List.eq_nil_or_concat solution with rfl | ⟨ys, y, rfl⟩
    · rw [show backspacePlayerSolution true ([] : List (List Int)) = [] from rfl]
        at hw
      cases hw
    · rw [List.concat_eq_append] at hpre hw
      rw [backspace_concat] at hw
      rw [List.dropLast_concat] at hpre
      have hys : ∀ v, ys.getLast? = some v → v ≠ [] := fun v hv =>
        hpre v (List.mem_of_mem_getLast? hv)
      by_cases hempty : y = []
      · rw [if_pos hempty] at hw
        exact hys w hw
      · rw [if_neg hempty] at hw
        by_cases hshort : y.dropLast = []
        · rw [if_pos hshort] at hw
          exact hys w hw
        · rw [if_neg hshort, List.getLast?_concat] at hw
          cases hw
          exact hshort

/-- **C10 witness.** Concretely, on the store value `[[0, 1]]` in play
mode, an out-of-range append (index 12) is a no-op and a backspace leaves
no empty word as last element. -/
theorem player_solution_mutator_guards_witness :
    appendLetterToPlayerSolution true 12 [[0, 1]] = [[0, 1]]
    ∧ (∀ w, (backspacePlayerSolution true [[0, 1]]).getLast? = some w → w ≠ []) :=
  ⟨(player_solution_mutator_guards [[0, 1]]).2.1 12 (Or.inr (by decide)),
   (player_solution_mutator_guards [[0, 1]]).2.2.2 (by decide)⟩

end Puzzle

/-! ## Chain solver

Modelled from the spec: the Rust/WASM core behind `solve_game`
(dictionary, puzzle word filter and chain solver, spec §3, §4.3, §4.4) is
not among the repository sources — only its TypeScript callers are — so it
is embedded from the spec's words. -/

namespace Solver

/-- Modelled from the spec: a puzzle is four sides of three letters;
per-slot side membership is recovered by locating a letter's side. -/
structure GamePuzzle where
  sides : List (List Char)
deriving DecidableEq, Repr

/-- The puzzle's letters in slot order. -/
def GamePuzzle.letters (p : GamePuzzle) : List Char := p.sides.join

/-- The puzzle's full Letter Set: the distinct letters across all slots. -/
def GamePuzzle.letterSet (p : GamePuzzle) : Finset Char := p.letters.toFinset

/-- Modelled from the spec (§4.3): the side index a letter maps to, `none`
when the letter is absent from the puzzle. -/
def sideIndex (p : GamePuzzle) (c : Char) : Option Nat :=
  p.sides.findIdx? (fun side => side.contains c)

/-- Modelled from the spec (§4.3): no two adjacent letters may map to the
same side index. -/
def noSameSideAdjacent (p : GamePuzzle) : List Char → Bool
  | [] => true
  | [_] => true
  | a :: b :: rest =>
      sideIndex p a != sideIndex p b && noSameSideAdjacent p (b :: rest)

/-- Modelled from the spec (§3, §4.3): a word is playable iff every letter
is one of the puzzle's letters and no two consecutive letters share a side
index. -/
def playableOn (p : GamePuzzle) (w : List Char) : Bool :=
  w.all (fun c => (sideIndex p c).isSome) && noSameSideAdjacent p w

/-- The words of the playable list that can continue a chain: all of them
for an empty chain, otherwise those whose first letter equals the chain's
last letter (spec §4.4 step 1's first-letter index). -/
def extensions (ws : List (List Char)) : Option Char → List (List Char)
  | none => ws
  | some c => ws.filter (fun w => w.head? == some c)

/-- Modelled from the spec (§4.4 step 2): depth-first search for chains of
exactly `k` more words.  `chain` is the chain built so far, `cov` its
coverage, `lastLetter` its last letter; a branch is pruned when the
uncovered letters cannot be covered in the remaining steps at `maxNew` new
letters per step; a chain is emitted when its word budget is exhausted and
its coverage equals the target. -/
def dfsChains (p : GamePuzzle) (ws : List (List Char)) (target : Finset Char)
    (maxNew : Nat) :
    Nat → List (List Char) → Finset Char → Option Char → List (List (List Char))
  | 0, chain, cov, _ => if cov = target then [chain] else []
  | k + 1, chain, cov, lastLetter =>
      if (target \ cov).card > (k + 1) * maxNew then []
      else
        ((extensions ws lastLetter).map (fun w =>
          dfsChains p ws target maxNew k (chain ++ [w]) (cov ∪ w.toFinset)
            w.getLast?)).join

/-- Aggregate score of a chain: the sum of its words' rank-derived weights
(spec §4.4, scoring). -/
def chainScore (rank : List Char → Nat) (chain : List (List Char)) : Nat :=
  (chain.map rank).sum

/-- Modelled from the spec (§4.4): filter the dictionary to the playable
words, then iterative deepening on the word count `k = 1, 2, …, maxK`,
each bucket sorted by ascending aggregate score, the flat result capped at
`maxSolutions`.  `maxNew` is the conservative per-step new-letter bound:
the longest playable word's length. -/
def solveGameModel (p : GamePuzzle) (dict : List (List Char))
    (rank : List Char → Nat) (maxSolutions maxK : Nat) : List (List (List Char)) :=
  let ws := dict.filter (playableOn p)
  let maxNew := (ws.map List.length).foldr max 0
  (((List.range maxK).map (fun k =>
      insertionSortBy (fun a b => chainScore rank a ≤ chainScore rank b)
        (dfsChains p ws (p.letterSet) maxNew (k + 1) [] ∅ none))).join).take
    maxSolutions

theorem mem_extensions (ws : List (List Char)) (lastLetter : Option Char)
    (w : List Char) (hw : w ∈ extensions ws lastLetter) : w ∈ ws := by
  cases lastLetter with
  | none => exact hw
  | some c => exact (List.mem_filter.mp hw).1

theorem dfsChains_mem (p : GamePuzzle) (ws : List (List Char))
    (target : Finset Char) (maxNew : Nat) :
    ∀ (k : Nat) (chain : List (List Char)) (cov : Finset Char)
      (lastLetter : Option Char) (s : List (List Char)),
      s ∈ dfsChains p ws target maxNew k chain cov lastLetter →
      (∀ w ∈ s, w ∈ chain ∨ w ∈ ws)
      ∧ (cov = chain.join.toFinset → s.join.toFinset = target) := by
  intro k
  induction k with
  | zero =>
    intro chain cov lastLetter s hs
    simp only [dfsChains] at hs
    split at hs
    · rename_i hcov
      rcases List.mem_singleton.mp hs with rfl
      exact ⟨fun w hw => Or.inl hw, fun hinv => by rw [← hinv, hcov]⟩
    · cases hs
  | succ k ih =>
    intro chain cov lastLetter s hs
    simp only [dfsChains] at hs
    split at hs
    · cases hs
    · rcases List.mem_join.mp hs with ⟨bucket, hbucket, hsmem⟩
      rcases List.mem_map.mp hbucket with ⟨w, hwext, rfl⟩
      have hwws : w ∈ ws := mem_extensions ws lastLetter w hwext
      rcases ih (chain ++ [w]) (cov ∪ w.toFinset) w.getLast? s hsmem with ⟨hmem, hcov⟩
      refine ⟨fun v hv => ?_, fun hinv => ?_⟩
      · rcases hmem v hv with hvc | hvw
        · rcases List.mem_append.mp hvc with hvc | hvc
          · exact Or.inl hvc
          · rcases List.mem_singleton.mp hvc with rfl
            exact Or.inr hwws
        · exact Or.inr hvw
      · apply hcov
        rw [hinv]
        simp [List.toFinset_append]

/-- **C1.** (Modelled from the spec.) Every Solution the solver returns is
made of words playable on the puzzle — each word's letters all map to a
side and no two consecutive letters share a side — and the union of the
distinct letters across its words is exactly the puzzle's full distinct
letter set. -/
theorem solutions_playable_and_cover (p : GamePuzzle) (dict : List (List Char))
    (rank : List Char → Nat) (maxSolutions maxK : Nat) (s : List (List Char))
    (hs : s ∈ solveGameModel p dict rank maxSolutions maxK) :
    (∀ w ∈ s, playableOn p w = true) ∧ s.join.toFinset = p.letterSet := by
  unfold solveGameModel at hs
  have hs' := List.mem_of_mem_take hs
  rcases List.mem_join.mp hs' with ⟨bucket, hbucket, hsmem⟩
  rcases List.mem_map.mp hbucket with ⟨k, -, rfl⟩
  rw [mem_insertionSortBy] at hsmem
  rcases dfsChains_mem p (dict.filter (playableOn p)) p.letterSet _
      (k + 1) [] ∅ none s hsmem with ⟨hmem, hcov⟩
  refine ⟨fun w hw => ?_, hcov (by simp)⟩
  rcases hmem w hw with hwc | hww
  · cases hwc
  · exact (List.mem_filter.mp hww).2

/-- **C1 witness.** The scenario puzzle `NUO / ERT / YIA / LCP` with the
one-word dictionary `["neurotypical"]`: the solver returns that single
one-word Solution, and the theorem applies to it. -/
theorem solutions_playable_and_cover_witness :
    (∀ w ∈ [['n', 'e', 'u', 'r', 'o', 't', 'y', 'p', 'i', 'c', 'a', 'l']],
      playableOn
        { sides := [['n', 'u', 'o'], ['e', 'r', 't'], ['y', 'i', 'a'],
                    ['l', 'c', 'p']] } w = true)
    ∧ ([['n', 'e', 'u', 'r', 'o', 't', 'y', 'p', 'i', 'c', 'a', 'l']] :
        List (List Char)).join.toFinset =
        GamePuzzle.letterSet
          { sides := [['n', 'u', 'o'], ['e', 'r', 't'], ['y', 'i', 'a'],
                      ['l', 'c', 'p']] } :=
  solutions_playable_and_cover
    { sides := [['n', 'u', 'o'], ['e', 'r', 't'], ['y', 'i', 'a'], ['l', 'c', 'p']] }
    [['n', 'e', 'u', 'r', 'o', 't', 'y', 'p', 'i', 'c', 'a', 'l']]
    (fun _ => 0) 10 1
    [['n', 'e', 'u', 'r', 'o', 't', 'y', 'p', 'i', 'c', 'a', 'l']]
    (by decide)

end Solver

end LetterBounced
